import Mathlib

/-!
Verification of a k-means clustering implementation (three Python modules:
`dataset.py`, `cluster.py`, `algorithm.py`) against its natural-language
specification.

Shallow embedding conventions:

* Python numbers (`int` / `float`) are modelled as rationals `ℚ`; all the
  arithmetic the code performs on them (sums, differences, squares, division
  by a member count, absolute-value comparisons against the `numpy.allclose`
  tolerances) is exact on the values the claims exercise.
* A Python *point* is a tuple of numbers; inside the engine it is a `List ℚ`.
  For the dynamic type checks of `dataset.py` (`is_point`, `is_point_list`)
  we keep a small model `PyObj` of Python runtime values, because those
  helpers branch on `type(...)` and can raise (`IndexError` on `value[0]`
  when the list is empty, `TypeError` on `len` of a non-sequence).
* Exceptions are modelled with `Except PyErr` / `Option`: `PyErr.assertionError`
  is a failed `assert` (the spec's `ContractViolation` kind), `PyErr.indexError`
  an out-of-range subscript, `PyErr.typeError` a `len()` on a non-sequence.
  Engine operations that can only fail via `min()` of an empty sequence or a
  failed assert return `Option`.
* `Cluster._centroid` is a Python tuple at construction time but the code of
  `Cluster.update` stores a *list* (`recomputation`) into it; the Boolean
  field `centroidIsTuple` records which Python type the stored centroid has
  (`type(c._centroid) == tuple`), so that spec statements about the centroid
  being an immutable tuple can be settled.
* `Cluster.distance` returns `sum ** 0.5`; the square root is strictly
  monotone on nonnegative reals, so two distances compare (`<`, `=`, `>`)
  exactly as the squared distances do.  All comparisons the engine performs
  on distances are therefore embedded on the squared distance `distSq`,
  keeping every definition executable over `ℚ`.
-/

/- Batteries marks the arithmetic on `Rat` irreducible; re-allow unfolding so
that concrete engine runs evaluate inside `decide`/`rfl` proofs. -/
unseal Rat.add Rat.sub Rat.mul Rat.inv

/-- Error kinds raised by the Python code: a failed `assert`
(the spec's `ContractViolation`), an `IndexError`, or a `TypeError`. -/
inductive PyErr where
  | assertionError : PyErr
  | indexError : PyErr
  | typeError : PyErr
deriving DecidableEq, Repr

/-- A model of the Python runtime values that `dataset.py`'s precondition
helpers inspect: ints, floats, tuples, lists and `None`. -/
inductive PyObj where
  | int : ℤ → PyObj
  | float : ℚ → PyObj
  | tuple : List PyObj → PyObj
  | list : List PyObj → PyObj
  | none : PyObj

/-- `type(x) in [int, float]` — the element test inside `is_point`. -/
def isNum : PyObj → Bool
  | .int _ => true
  | .float _ => true
  | _ => false

/-- `dataset.is_point(value)`: `value` is a tuple all of whose elements are
`int` or `float`.  The source sets a flag `okay` to `False` on a bad element
and never resets it, which is exactly `List.all`. -/
def is_point : PyObj → Bool
  | .tuple xs => xs.all isNum
  | _ => false

/-- `len(x)` for the sized values; `TypeError` otherwise (ints, floats,
`None` have no `len`). -/
def pyLen : PyObj → Except PyErr ℕ
  | .tuple xs => .ok xs.length
  | .list xs => .ok xs.length
  | _ => .error .typeError

/-- `len(x)` as a total function, used only where a preceding `is_point`
check guarantees `x` is a tuple. -/
def lenOf : PyObj → ℕ
  | .tuple xs => xs.length
  | .list xs => xs.length
  | _ => 0

/-- `value == None`. -/
def isNone : PyObj → Bool
  | .none => true
  | _ => false

/-- `dataset.is_point_list(value)`.  The source first checks
`type(value) == list`, then evaluates `dim = len(value[0])` *before* any
emptiness check — on an empty list `value[0]` raises an unguarded
`IndexError`, and `len` of a non-sequence first element raises `TypeError` —
and then drives a flag `okay` over all elements: an element that is not a
point, or whose length differs from `dim`, clears the flag.  (The loop's
`or` short-circuits, so `len(x)` is only consulted when `is_point x` holds;
`lenOf` is total and agrees with `len` on tuples.) -/
def is_point_list : PyObj → Except PyErr Bool
  | .list xs =>
    match xs with
    | [] => .error .indexError
    | x0 :: _ =>
      match pyLen x0 with
      | .error e => .error e
      | .ok dim => .ok (xs.all (fun x => is_point x && lenOf x == dim))
  | _ => .ok false

/-- Numeric value of an `int`/`float` object (0 on non-numbers, which every
use guards against with `is_point`). -/
def toRat : PyObj → ℚ
  | .int n => (n : ℚ)
  | .float q => q
  | _ => 0

/-- The `List ℚ` behind a point tuple. -/
def toPoint : PyObj → List ℚ
  | .tuple xs => xs.map toRat
  | _ => []

/-- The stored contents behind a validated list of points. -/
def toPoints : PyObj → List (List ℚ)
  | .list xs => xs.map toPoint
  | _ => []

/-- A point as the engine handles it: the numbers of a Python tuple. -/
abbrev Point := List ℚ

/-- `dataset.Dataset`: the declared dimension and the stored list of points
(`_dimension`, `_contents`). -/
structure Dataset where
  dimension : ℕ
  contents : List Point
deriving DecidableEq, Repr

/-- `Dataset.getDimension`. -/
def Dataset.getDimension (d : Dataset) : ℕ := d.dimension

/-- `Dataset.getSize`: `len` of the contents (the `try/except` in the source
only guards against a missing attribute, which cannot happen here). -/
def Dataset.getSize (d : Dataset) : ℕ := d.contents.length

/-- `Dataset.getContents`. -/
def Dataset.getContents (d : Dataset) : List Point := d.contents

/-- `Dataset.getPoint(i)`.  The source asserts `0 <= i <= getSize()-1`;
every call site below (partitioning over `range(size)`, seed indices
validated by `valid_seeds`) establishes the bound, so the lookup is embedded
with a default that is never reached at those sites. -/
def Dataset.getPoint (d : Dataset) (i : ℕ) : Point := d.contents.getD i []

/-- `Dataset.__init__(dim, contents)`.  The first assert requires `dim` to be
a positive int (the embedding's `ℕ` argument covers the ints the claims
exercise; non-positive values fail).  The second assert evaluates
`is_point_list(contents) or contents == None` — any exception from
`is_point_list` propagates *before* the assert can fail.  On success the
contents are shallow-copied (`contents[:]`). -/
def Dataset.init (dim : ℕ) (contents : PyObj) : Except PyErr Dataset :=
  if 0 < dim then
    match is_point_list contents with
    | .error e => .error e
    | .ok b =>
      if b || isNone contents then
        match contents with
        | .none => .ok ⟨dim, []⟩
        | _ => .ok ⟨dim, toPoints contents⟩
      else .error .assertionError
  else .error .assertionError

/-- `Dataset.addPoint(point)`: asserts `is_point(point)` and
`len(point) == getDimension()`, then appends. -/
def Dataset.addPoint (d : Dataset) (point : PyObj) : Except PyErr Dataset :=
  if is_point point && lenOf point == d.getDimension then
    .ok ⟨d.dimension, d.contents ++ [toPoint point]⟩
  else .error .assertionError

/-- A sequence of `addPoint` calls (stopping at the first failed assert),
used to state the dataset length invariant over a whole lifetime. -/
def Dataset.addChain (d : Dataset) : List PyObj → Except PyErr Dataset
  | [] => .ok d
  | v :: vs =>
    match d.addPoint v with
    | .ok d2 => d2.addChain vs
    | .error e => .error e

/-- The `numpy.allclose` default relative tolerance, `rtol = 1e-05`. -/
def rtol : ℚ := 1 / 100000

/-- The `numpy.allclose` default absolute tolerance, `atol = 1e-08`. -/
def atol : ℚ := 1 / 100000000

/-- `numpy.allclose(a, b)` with the default tolerances: elementwise
`|a - b| <= atol + rtol * |b|`, all coordinates passing.  Both call sites
compare an old centroid with a freshly recomputed one of the same length
(the dataset dimension), so numpy's broadcasting never triggers; unequal
lengths are mapped to `false`. -/
def allclose (a b : List ℚ) : Bool :=
  a.length == b.length &&
    (a.zip b).all (fun pr => decide (|pr.1 - pr.2| ≤ atol + rtol * |pr.2|))

/-- `cluster.Cluster`: the stored centroid's numbers (`_centroid`), whether
its Python type is `tuple` (`True` at construction, where
`type(centroid) == tuple` is asserted; `False` once `update` stores the
`recomputation` *list*), and the member index list (`_indices`).  The
back-reference `_dataset` is the owning engine's dataset and is passed
explicitly to the operations that read it. -/
structure Cluster where
  centroidIsTuple : Bool
  centroid : List ℚ
  indices : List ℕ
deriving DecidableEq, Repr

/-- `Cluster.getIndices`. -/
def Cluster.getIndices (c : Cluster) : List ℕ := c.indices

/-- `Cluster.getCentroid` (the numbers; `centroidIsTuple` tells the Python
type of the returned object). -/
def Cluster.getCentroid (c : Cluster) : List ℚ := c.centroid

/-- `Cluster.addIndex(index)`: append `index` unless already present.  The
source asserts `0 <= index < dataset.getSize()`; the one caller
(`Algorithm._partition`) only passes indices from `range(size)`. -/
def Cluster.addIndex (c : Cluster) (index : ℕ) : Cluster :=
  if c.indices.contains index then c
  else { c with indices := c.indices ++ [index] }

/-- `Cluster.clear()`: empties membership, centroid untouched. -/
def Cluster.clear (c : Cluster) : Cluster := { c with indices := [] }

/-- `Cluster.getContents()`: the member points, looked up through the
dataset (`dset` is the cluster's `_dataset`). -/
def Cluster.getContents (dset : Dataset) (c : Cluster) : List Point :=
  c.indices.map (fun i => dset.getPoint i)

/-- The squared Euclidean distance from `point` to the centroid of `c`.
`Cluster.distance` pairs `point[i]` with `getCentroid()[i]` (which is `zip`
when the two have the dataset dimension, as the asserts and the centroid
invariant give), sums the squared differences and returns `sum ** 0.5`;
since the square root is strictly monotone, every comparison of distances
in the engine is embedded as the same comparison of `distSq` values. -/
def Cluster.distSq (c : Cluster) (point : Point) : ℚ :=
  ((point.zip c.centroid).map (fun pr => (pr.1 - pr.2) * (pr.1 - pr.2))).sum

/-- The coordinate-wise recomputation in `Cluster.update`: `recomputation`
has `len(contents[0])` columns; column `i` collects `point[i]` from each
member that has such a coordinate and is then replaced by its average.
(All members have the first member's length at every call site, by the
dataset's fixed dimension; a longer member would make the Python loop raise
`IndexError`, a case no claim exercises.) -/
def Cluster.recomputation (dset : Dataset) (c : Cluster) : List ℚ :=
  match c.getContents dset with
  | [] => c.centroid
  | p0 :: _ =>
    (List.range p0.length).map (fun i =>
      let col := (c.getContents dset).filterMap (fun p => p.get? i)
      col.sum / (col.length : ℚ))

/-- `Cluster.update()`: with no members, report `True` and change nothing;
otherwise store the recomputed column averages (a Python *list*) as the new
centroid and report `numpy.allclose(old_centroid, recomputation)`. -/
def Cluster.update (dset : Dataset) (c : Cluster) : Bool × Cluster :=
  match c.getContents dset with
  | [] => (true, c)
  | _ :: _ =>
    (allclose c.centroid (c.recomputation dset),
     { c with centroid := c.recomputation dset, centroidIsTuple := false })

/-- Python's `min` over a nonempty sequence (`None` on the empty one, where
`min()` raises `ValueError`). -/
def listMin : List ℚ → Option ℚ
  | [] => Option.none
  | x :: xs => some (xs.foldl min x)

/-- Index of the first element satisfying `p` — the `[...][0]` of the list
comprehension in `Algorithm._nearest`, as a position into the engine's
cluster list (Python returns the cluster object itself and mutates it; with
positions the same mutation is an update of the list at that index). -/
def firstIdx (p : Cluster → Bool) : List Cluster → Option ℕ
  | [] => Option.none
  | c :: cs => if p c then some 0 else (firstIdx p cs).map (· + 1)

/-- Replace the `j`-th cluster by `f` of it (out-of-range: unchanged) —
the in-place mutation of the Python object returned by `_nearest`. -/
def modifyAt (cs : List Cluster) (j : ℕ) (f : Cluster → Cluster) : List Cluster :=
  match cs, j with
  | [], _ => []
  | c :: rest, 0 => f c :: rest
  | c :: rest, Nat.succ j => c :: modifyAt rest j f

/-- `algorithm.valid_seeds(value, size)`: every element must be an int in
`[0, size-1]` occurring at most once, with early `return False` — which is
`List.all`.  `type(value) != list` returns `False`: the embedding's `List ℤ`
argument covers exactly the Python lists of ints; passing a tuple (rejected
by the source) is outside the claims.  The `assert size > 0` holds at the
one call site because `k <= size` and `k > 0`. -/
def valid_seeds (value : List ℤ) (size : ℕ) : Bool :=
  value.all (fun seed =>
    decide (0 ≤ seed) && decide (seed ≤ (size : ℤ) - 1) && value.count seed ≤ 1)

/-- `algorithm.Algorithm`: the shared dataset (`_dataset`) and the cluster
list (`_cluster`). -/
structure Algorithm where
  dataset : Dataset
  clusters : List Cluster
deriving DecidableEq, Repr

/-- `Algorithm.getClusters`. -/
def Algorithm.getClusters (a : Algorithm) : List Cluster := a.clusters

/-- `Algorithm.__init__(dset, k, seeds)`.  Asserts `0 < k <= dset.getSize()`
and `seeds == None or valid_seeds(seeds, dset.getSize())`; builds one
cluster per seed (in seed order) when seeds are given — note the source's
`assert len(seeds) == k` is commented out — and one per drawn index
otherwise.  `randomSample` stands for `random.sample(range(size), k)`, the
injected source of randomness; its contract (`k` distinct indices below
`size`) is hypothesised where needed.  Each cluster starts with the chosen
dataset point (a tuple, as `Cluster.__init__` asserts) as centroid and
empty membership. -/
def Algorithm.init (dset : Dataset) (k : ℕ) (seeds : Option (List ℤ))
    (randomSample : List ℕ) : Option Algorithm :=
  if 0 < k ∧ k ≤ dset.getSize then
    match seeds with
    | some s =>
      if valid_seeds s dset.getSize then
        some ⟨dset, s.map (fun seed => ⟨true, dset.getPoint seed.toNat, []⟩)⟩
      else Option.none
    | Option.none =>
      some ⟨dset, randomSample.map (fun seed => ⟨true, dset.getPoint seed, []⟩)⟩
  else Option.none

/-- `Algorithm._nearest(point)`, as the position of the returned cluster in
`_cluster`.  The source asserts `is_point(point)` and the dimension match,
stores `cluster.distance(point)` per cluster in an (insertion-ordered) dict,
takes `minimum = min(distances.values())` (`ValueError`, hence `none`, on an
empty cluster list) and returns the first key whose distance equals the
minimum.  Distances are compared through `distSq` (the square root is
strictly monotone, so minima and ties are at the same positions). -/
def Algorithm.nearestIdx (a : Algorithm) (point : Point) : Option ℕ :=
  if point.length = a.dataset.getDimension then
    match listMin (a.clusters.map (fun c => c.distSq point)) with
    | Option.none => Option.none
    | some m => firstIdx (fun c => decide (c.distSq point = m)) a.clusters
  else Option.none

/-- `Algorithm._nearest(point)` as the cluster itself. -/
def Algorithm.nearest (a : Algorithm) (point : Point) : Option Cluster :=
  (a.nearestIdx point).bind (fun j => a.clusters.get? j)

/-- The loop of `Algorithm._partition`: for each dataset index in turn, add
it to the cluster nearest to its point (the cluster list's centroids are
never changed inside the loop, only memberships grow). -/
def partitionLoop (dset : Dataset) (cs : List Cluster) : List ℕ → Option (List Cluster)
  | [] => some cs
  | i :: rest =>
    match Algorithm.nearestIdx ⟨dset, cs⟩ (dset.getPoint i) with
    | Option.none => Option.none
    | some j => partitionLoop dset (modifyAt cs j (fun c => c.addIndex i)) rest

/-- `Algorithm._partition()`: clear every cluster, then assign every index
of `range(len(contents))` to its nearest cluster. -/
def Algorithm.partition (a : Algorithm) : Option Algorithm :=
  (partitionLoop a.dataset (a.clusters.map Cluster.clear)
      (List.range a.dataset.getSize)).map (fun cs => ⟨a.dataset, cs⟩)

/-- `Algorithm._update()`: update every cluster (no short-circuit: each one
is recomputed), reporting `True` iff none changed. -/
def Algorithm.update (a : Algorithm) : Bool × Algorithm :=
  let results := a.clusters.map (fun c => c.update a.dataset)
  (results.all Prod.fst, ⟨a.dataset, results.map Prod.snd⟩)

/-- `Algorithm.step()`: `_partition` then `_update`, returning the global
convergence flag (and the mutated engine). -/
def Algorithm.step (a : Algorithm) : Option (Bool × Algorithm) :=
  a.partition.map Algorithm.update

/-- `Algorithm.run(maxstep)`: call `step()` up to `maxstep` times, returning
early the first time it reports convergence.  The second component counts
the `step()` invocations actually performed (the Python method returns
`None`; the engine state and the count are the observable outcome). -/
def Algorithm.run (a : Algorithm) : ℕ → Option (Algorithm × ℕ)
  | 0 => some (a, 0)
  | Nat.succ m =>
    match a.step with
    | Option.none => Option.none
    | some (true, a2) => some (a2, 1)
    | some (false, a2) => (a2.run m).map (fun pr => (pr.1, pr.2 + 1))

/-- The engine after `k` successful `step()` calls (ignoring the flags). -/
def afterSteps (a : Algorithm) : ℕ → Option Algorithm
  | 0 => some a
  | Nat.succ k => (afterSteps a k).bind (fun b => b.step.map Prod.snd)

/-- The convergence flag returned by the `(k+1)`-st `step()` call. -/
def flagAt (a : Algorithm) (k : ℕ) : Option Bool :=
  (afterSteps a k).bind (fun b => b.step.map Prod.fst)

/-- Total number of occurrences of index `i` across all clusters'
member lists. -/
def totalCount (cs : List Cluster) (i : ℕ) : ℕ :=
  (cs.map (fun c => c.indices.count i)).sum

/-- The partition-completeness check: every dataset index occurs exactly
once across the engine's clusters, and no out-of-range index occurs. -/
def partitionIsExact (a : Algorithm) : Bool :=
  (List.range a.dataset.getSize).all (fun i => totalCount a.clusters i == 1) &&
    a.clusters.all (fun c => c.indices.all (fun i => decide (i < a.dataset.getSize)))

/-- A default cluster for positional lookups in checkers. -/
def cDefault : Cluster := ⟨true, [], []⟩

/-- The nearest-cluster check at position `j`: the cluster there achieves
the minimal (squared) distance among all clusters, and every strictly
earlier cluster is strictly farther (first occurrence of the minimum). -/
def nearestOk (a : Algorithm) (point : Point) (j : ℕ) : Bool :=
  match a.clusters.get? j with
  | Option.none => false
  | some c =>
    a.clusters.all (fun c2 => decide (c.distSq point ≤ c2.distSq point)) &&
      (List.range j).all (fun k =>
        decide (c.distSq point < (a.clusters.getD k cDefault).distSq point))

/-! ### Helper lemmas -/

theorem foldl_min_mem : ∀ (xs : List ℚ) (x : ℚ), xs.foldl min x ∈ x :: xs := by
  intro xs
  induction xs with
  | nil => intro x; simp
  | cons y ys ih =>
    intro x
    have h := ih (min x y)
    rw [List.foldl_cons]
    rcases min_choice x y with hm | hm <;> rw [hm] at h ⊢
    · rcases List.mem_cons.mp h with h1 | h1
      · exact List.mem_cons.mpr (Or.inl h1)
      · exact List.mem_cons.mpr (Or.inr (List.mem_cons.mpr (Or.inr h1)))
    · rcases List.mem_cons.mp h with h1 | h1
      · exact List.mem_cons.mpr (Or.inr (List.mem_cons.mpr (Or.inl h1)))
      · exact List.mem_cons.mpr (Or.inr (List.mem_cons.mpr (Or.inr h1)))

theorem foldl_min_le : ∀ (xs : List ℚ) (x : ℚ), ∀ y ∈ x :: xs, xs.foldl min x ≤ y := by
  intro xs
  induction xs with
  | nil => intro x y hy; simp at hy; simp [hy]
  | cons z zs ih =>
    intro x y hy
    rw [List.foldl_cons]
    have hself : List.foldl min (min x z) zs ≤ min x z :=
      ih (min x z) (min x z) (List.mem_cons_self _ _)
    simp only [List.mem_cons] at hy
    rcases hy with h1 | h1 | h1
    · rw [h1]; exact le_trans hself (min_le_left x z)
    · rw [h1]; exact le_trans hself (min_le_right x z)
    · exact ih (min x z) y (List.mem_cons.mpr (Or.inr h1))

theorem listMin_spec (x : ℚ) (xs : List ℚ) :
    ∃ m, listMin (x :: xs) = some m ∧ m ∈ x :: xs ∧ ∀ y ∈ x :: xs, m ≤ y :=
  ⟨xs.foldl min x, rfl, foldl_min_mem xs x, foldl_min_le xs x⟩

theorem firstIdx_spec (p : Cluster → Bool) :
    ∀ (l : List Cluster) (j : ℕ), firstIdx p l = some j →
      ∃ c, l.get? j = some c ∧ p c = true ∧
        ∀ k, k < j → ∀ c', l.get? k = some c' → p c' = false := by
  intro l
  induction l with
  | nil => intro j h; simp [firstIdx] at h
  | cons c cs ih =>
    intro j h
    by_cases hp : p c
    · simp [firstIdx, hp] at h
      subst h
      exact ⟨c, rfl, hp, by omega⟩
    · simp [firstIdx, hp] at h
      obtain ⟨j', hj', rfl⟩ := h
      obtain ⟨c', hc', hpc', hlt⟩ := ih j' hj'
      refine ⟨c', hc', hpc', ?_⟩
      intro k hk c2 hc2
      match k with
      | 0 =>
        simp at hc2
        subst hc2
        simpa using hp
      | Nat.succ k' =>
        exact hlt k' (by omega) c2 hc2

theorem firstIdx_lt (p : Cluster → Bool) :
    ∀ (l : List Cluster) (j : ℕ), firstIdx p l = some j → j < l.length := by
  intro l j h
  obtain ⟨c, hc, -, -⟩ := firstIdx_spec p l j h
  exact List.get?_eq_some.mp hc |>.choose

theorem firstIdx_isSome_of_exists (p : Cluster → Bool) :
    ∀ (l : List Cluster), (∃ c ∈ l, p c = true) → ∃ j, firstIdx p l = some j := by
  intro l
  induction l with
  | nil => rintro ⟨c, hc, -⟩; simp at hc
  | cons c cs ih =>
    rintro ⟨c', hc', hp⟩
    by_cases hpc : p c
    · exact ⟨0, by simp [firstIdx, hpc]⟩
    · simp only [List.mem_cons] at hc'
      rcases hc' with rfl | hc'
      · exact absurd hp hpc
      · obtain ⟨j, hj⟩ := ih ⟨c', hc', hp⟩
        exact ⟨j + 1, by simp [firstIdx, hpc, hj]⟩

theorem modifyAt_length (f : Cluster → Cluster) :
    ∀ (cs : List Cluster) (j : ℕ), (modifyAt cs j f).length = cs.length := by
  intro cs
  induction cs with
  | nil => intro j; rfl
  | cons c rest ih =>
    intro j
    match j with
    | 0 => rfl
    | Nat.succ j' => simpa [modifyAt] using ih j'

theorem map_modifyAt_invariant (f : Cluster → Cluster) {α : Type} (g : Cluster → α)
    (hg : ∀ c, g (f c) = g c) :
    ∀ (cs : List Cluster) (j : ℕ), (modifyAt cs j f).map g = cs.map g := by
  intro cs
  induction cs with
  | nil => intro j; rfl
  | cons c rest ih =>
    intro j
    match j with
    | 0 => simp [modifyAt, hg]
    | Nat.succ j' => simp [modifyAt, ih j']

theorem totalCount_cons (c : Cluster) (cs : List Cluster) (i : ℕ) :
    totalCount (c :: cs) i = c.indices.count i + totalCount cs i := by
  simp [totalCount]

theorem addIndex_count_self (c : Cluster) (i : ℕ) (h : c.indices.count i = 0) :
    (c.addIndex i).indices.count i = 1 := by
  have hmem : i ∉ c.indices := by
    intro hm
    have := List.count_pos_iff.mpr hm
    omega
  simp [Cluster.addIndex, hmem, List.count_append, h]

theorem addIndex_count_other (c : Cluster) (i x : ℕ) (h : x ≠ i) :
    (c.addIndex i).indices.count x = c.indices.count x := by
  unfold Cluster.addIndex
  split
  · rfl
  · simp [List.count_append, List.count_singleton', h]

theorem addIndex_centroid (c : Cluster) (i : ℕ) :
    (c.addIndex i).centroid = c.centroid := by
  unfold Cluster.addIndex
  split <;> rfl

theorem addIndex_centroidIsTuple (c : Cluster) (i : ℕ) :
    (c.addIndex i).centroidIsTuple = c.centroidIsTuple := by
  unfold Cluster.addIndex
  split <;> rfl

theorem totalCount_modifyAt_self :
    ∀ (cs : List Cluster) (j i : ℕ), j < cs.length → totalCount cs i = 0 →
      totalCount (modifyAt cs j (fun c => c.addIndex i)) i = 1 := by
  intro cs
  induction cs with
  | nil => intro j i hj; simp at hj
  | cons c rest ih =>
    intro j i hj h0
    rw [totalCount_cons] at h0
    have hc : c.indices.count i = 0 := by omega
    have hrest : totalCount rest i = 0 := by omega
    match j with
    | 0 =>
      show totalCount (c.addIndex i :: rest) i = 1
      rw [totalCount_cons, addIndex_count_self c i hc, hrest]
    | Nat.succ j2 =>
      show totalCount (c :: modifyAt rest j2 (fun c => c.addIndex i)) i = 1
      rw [totalCount_cons, hc, ih j2 i (by simpa using hj) hrest]

theorem totalCount_modifyAt_other :
    ∀ (cs : List Cluster) (j i x : ℕ), x ≠ i →
      totalCount (modifyAt cs j (fun c => c.addIndex i)) x = totalCount cs x := by
  intro cs
  induction cs with
  | nil => intro j i x hx; cases j <;> rfl
  | cons c rest ih =>
    intro j i x hx
    match j with
    | 0 =>
      show totalCount (c.addIndex i :: rest) x = _
      rw [totalCount_cons, totalCount_cons, addIndex_count_other c i x hx]
    | Nat.succ j2 =>
      show totalCount (c :: modifyAt rest j2 (fun c => c.addIndex i)) x = _
      rw [totalCount_cons, totalCount_cons, ih j2 i x hx]

theorem totalCount_pos_of_mem :
    ∀ (cs : List Cluster) (c : Cluster), c ∈ cs → ∀ i ∈ c.indices, 0 < totalCount cs i := by
  intro cs
  induction cs with
  | nil => intro c hc; simp at hc
  | cons c0 rest ih =>
    intro c hc i hi
    rw [totalCount_cons]
    rcases List.mem_cons.mp hc with h1 | h1
    · have : 0 < c0.indices.count i := List.count_pos_iff.mpr (h1 ▸ hi)
      omega
    · have := ih c h1 i hi
      omega

theorem mem_zip_self (x : List ℚ) : ∀ pr ∈ x.zip x, pr.1 = pr.2 := by
  induction x with
  | nil => intro pr h; simp at h
  | cons a l ih =>
    intro pr h
    rw [List.zip_cons_cons] at h
    rcases List.mem_cons.mp h with h1 | h1
    · rw [h1]
    · exact ih pr h1

theorem allclose_of_eqlen (a b : List ℚ) (h : a.length = b.length) :
    allclose a b =
      (a.zip b).all (fun pr => decide (|pr.1 - pr.2| ≤ atol + rtol * |pr.2|)) := by
  simp [allclose, h]

theorem allclose_self (x : List ℚ) : allclose x x = true := by
  rw [allclose_of_eqlen x x rfl, List.all_eq_true]
  intro pr hpr
  rw [decide_eq_true_eq, mem_zip_self x pr hpr, sub_self, abs_zero]
  have := abs_nonneg pr.2
  simp only [atol, rtol]
  nlinarith

theorem allclose_eq_range (a b : List ℚ) (h : a.length = b.length) :
    allclose a b = (List.range b.length).all (fun j =>
      decide (|a.getD j 0 - b.getD j 0| ≤ atol + rtol * |b.getD j 0|)) := by
  induction b generalizing a with
  | nil =>
    rw [List.length_eq_zero.mp h]
    rfl
  | cons b0 bs ih =>
    match a, h with
    | a0 :: as, h =>
      have h2 : as.length = bs.length := by simpa using h
      rw [allclose_of_eqlen _ _ h, List.zip_cons_cons, List.all_cons,
        List.length_cons, List.range_succ_eq_map, List.all_cons, List.all_map]
      rw [← allclose_of_eqlen as bs h2, ih as h2]
      simp [Function.comp_def]

theorem filterMap_get_eq_map :
    ∀ (l : List Point) (j : ℕ), (∀ p ∈ l, j < p.length) →
      l.filterMap (fun p => p.get? j) = l.map (fun p => p.getD j 0) := by
  intro l j
  induction l with
  | nil => intro h; rfl
  | cons p ps ih =>
    intro h
    have hp : j < p.length := h p (List.mem_cons_self _ _)
    have hg : p.get? j = some (p.getD j 0) := by
      rcases hx : p.get? j with - | v
      · exact absurd (List.get?_eq_none.mp hx) (by omega)
      · rw [List.getD_eq_get?, hx]; rfl
    rw [List.filterMap_cons, hg, List.map_cons,
      ih (fun q hq => h q (List.mem_cons_of_mem _ hq))]

theorem getPoint_mem (d : Dataset) (i : ℕ) (h : i < d.getSize) :
    d.getPoint i ∈ d.contents := by
  unfold Dataset.getPoint
  rcases hx : d.contents.get? i with - | p
  · exact absurd (List.get?_eq_none.mp hx) (by unfold Dataset.getSize at h; omega)
  · rw [List.getD_eq_get?, hx]
    exact List.get?_mem hx

theorem toPoint_length_of_is_point (v : PyObj) (h : is_point v = true) :
    (toPoint v).length = lenOf v := by
  cases v <;> simp [is_point] at h <;> simp [toPoint, lenOf]

theorem addPoint_ok (d : Dataset) (v : PyObj) (d2 : Dataset)
    (h : d.addPoint v = .ok d2) :
    d2.dimension = d.dimension ∧ d2.contents = d.contents ++ [toPoint v] ∧
      (toPoint v).length = d.dimension := by
  unfold Dataset.addPoint at h
  split at h
  · next hguard =>
    rw [Bool.and_eq_true] at hguard
    obtain ⟨hpt, hlen⟩ := hguard
    cases h
    exact ⟨rfl, rfl, by
      rw [toPoint_length_of_is_point v hpt]
      exact Nat.beq_eq ▸ (by simpa [Dataset.getDimension] using hlen)⟩
  · cases h

theorem init_none_ok (dim : ℕ) (d : Dataset)
    (h : Dataset.init dim PyObj.none = .ok d) : d = ⟨dim, []⟩ := by
  unfold Dataset.init at h
  by_cases hdim : 0 < dim
  · simp only [hdim, if_true] at h
    simp [is_point_list, isNone] at h
    exact h.symm
  · simp [hdim] at h

theorem addChain_preserves :
    ∀ (vs : List PyObj) (d d2 : Dataset), (∀ p ∈ d.contents, p.length = d.dimension) →
      d.addChain vs = .ok d2 → ∀ p ∈ d2.contents, p.length = d2.dimension := by
  intro vs
  induction vs with
  | nil =>
    intro d d2 hinv h
    cases h
    exact hinv
  | cons v rest ih =>
    intro d d2 hinv h
    unfold Dataset.addChain at h
    split at h
    · next dmid hmid =>
      refine ih dmid d2 ?_ h
      obtain ⟨hdim, hcont, hlen⟩ := addPoint_ok d v dmid hmid
      intro p hp
      rw [hcont] at hp
      rcases List.mem_append.mp hp with h1 | h1
      · rw [hdim]; exact hinv p h1
      · rw [List.mem_singleton.mp h1, hdim]; exact hlen
    · cases h

/-- Claim C10: `Dataset(dim, [])` — constructing a dataset with an empty
list as initial contents — neither constructs an (empty) dataset nor fails
the `assert` (the `ContractViolation` kind): `is_point_list` reads
`value[0]` before any emptiness check, so the call raises an unguarded
`IndexError` inside the precondition helper itself. -/
theorem dataset_empty_list_indexError (dim : ℕ) (h : 0 < dim) :
    Dataset.init dim (PyObj.list []) = .error .indexError := by
  unfold Dataset.init
  simp [h, is_point_list]

theorem dataset_empty_list_indexError_witness :
    Dataset.init 2 (PyObj.list []) = .error .indexError :=
  dataset_empty_list_indexError 2 (by decide)

/-- Claim C8: `Cluster.update()` on a cluster with zero members returns
`True` and leaves the whole cluster — in particular the stored centroid —
exactly unchanged. -/
theorem update_empty_frame (d : Dataset) (c : Cluster) (h : c.indices = []) :
    Cluster.update d c = (true, c) := by
  simp [Cluster.update, Cluster.getContents, h]

theorem update_empty_frame_witness :
    Cluster.update ⟨1, [[5]]⟩ ⟨true, [3], []⟩ = (true, ⟨true, [3], []⟩) :=
  update_empty_frame ⟨1, [[5]]⟩ ⟨true, [3], []⟩ rfl

/-- Claim C6, counterexample: the constructor accepts initial contents whose
points do *not* have the declared dimension — `is_point_list` only checks
that all points share the *first point's* length, and nothing compares that
length with `dim` — so `Dataset(2, [(1, 2, 3)])` succeeds while storing a
point of length 3 in a dataset of declared dimension 2. -/
theorem dataset_dim_invariant_cex :
    (Dataset.init 2 (PyObj.list [PyObj.tuple [PyObj.int 1, PyObj.int 2, PyObj.int 3]])).map
      (fun d => d.contents.all (fun p => p.length == d.dimension)) = .ok false := by
  rfl

/-- Claim C6, amended: a dataset constructed *without* initial contents
keeps, through every successful `addPoint`, the invariant that each stored
point has length exactly the declared dimension (`addPoint` asserts this);
with initial contents the constructor only forces all points to share the
first point's length, which it never compares with `dim`. -/
theorem dataset_dim_invariant (dim : ℕ) (vs : List PyObj) (d d2 : Dataset)
    (h0 : Dataset.init dim PyObj.none = .ok d) (h1 : d.addChain vs = .ok d2) :
    d2.contents.all (fun p => p.length == d2.dimension) = true := by
  rw [List.all_eq_true]
  intro p hp
  rw [beq_iff_eq]
  refine addChain_preserves vs d d2 ?_ h1 p hp
  rw [init_none_ok dim d h0]
  intro q hq
  simp at hq

theorem dataset_dim_invariant_witness :
    (⟨2, [[1, 2]]⟩ : Dataset).contents.all
      (fun p => p.length == (⟨2, [[(1 : ℚ), 2]]⟩ : Dataset).dimension) = true :=
  dataset_dim_invariant 2 [PyObj.tuple [PyObj.int 1, PyObj.int 2]] ⟨2, []⟩ ⟨2, [[1, 2]]⟩
    rfl rfl

theorem getContents_length_all (d : Dataset) (c : Cluster)
    (h2 : ∀ i ∈ c.indices, i < d.getSize)
    (h3 : ∀ p ∈ d.contents, p.length = d.dimension) :
    ∀ p ∈ c.getContents d, p.length = d.dimension := by
  intro p hp
  unfold Cluster.getContents at hp
  obtain ⟨i, hi, rfl⟩ := List.mem_map.mp hp
  exact h3 _ (getPoint_mem d i (h2 i hi))

theorem update_eq_of_cons (d : Dataset) (c : Cluster) (p0 : Point) (ps : List Point)
    (hcon : c.getContents d = p0 :: ps) :
    Cluster.update d c = (allclose c.centroid (c.recomputation d),
      { c with centroid := c.recomputation d, centroidIsTuple := false }) := by
  unfold Cluster.update
  rw [hcon]

theorem recomputation_eq_mean (d : Dataset) (c : Cluster)
    (h1 : c.indices ≠ [])
    (h2 : ∀ i ∈ c.indices, i < d.getSize)
    (h3 : ∀ p ∈ d.contents, p.length = d.dimension) :
    c.recomputation d = (List.range d.dimension).map (fun j =>
      ((c.getContents d).map (fun p => p.getD j 0)).sum /
        ((c.getContents d).length : ℚ)) := by
  have hmem := getContents_length_all d c h2 h3
  have hne : c.getContents d ≠ [] := by
    simpa [Cluster.getContents] using h1
  obtain ⟨p0, ps, hcon⟩ := List.exists_cons_of_ne_nil hne
  have hp0 : p0.length = d.dimension :=
    hmem p0 (by rw [hcon]; exact List.mem_cons_self _ _)
  have hmem2 : ∀ p ∈ p0 :: ps, p.length = d.dimension := by
    rw [← hcon]; exact hmem
  simp only [Cluster.recomputation, hcon]
  rw [hp0]
  apply List.map_congr_left
  intro j hj
  have hjD := List.mem_range.mp hj
  have hcols : (p0 :: ps).filterMap (fun p => p.get? j) =
      (p0 :: ps).map (fun p => p.getD j 0) :=
    filterMap_get_eq_map _ j (fun p hp => by rw [hmem2 p hp]; exact hjD)
  simp only [hcols, List.length_map]

theorem recomputation_length (d : Dataset) (c : Cluster)
    (h1 : c.indices ≠ [])
    (h2 : ∀ i ∈ c.indices, i < d.getSize)
    (h3 : ∀ p ∈ d.contents, p.length = d.dimension) :
    (c.recomputation d).length = d.dimension := by
  rw [recomputation_eq_mean d c h1 h2 h3, List.length_map, List.length_range]

/-- Claim C2: on a cluster with at least one member (under the documented
invariants: member indices in range, dataset points and centroid of the
dataset's dimension), `update()` replaces the stored centroid by the point
whose `j`-th coordinate is the arithmetic mean of the members' `j`-th
coordinates, and returns `True` exactly when every coordinate of the old
centroid passes the `numpy.allclose` default-tolerance test against the
corresponding coordinate of the new one
(`|old - new| <= 1e-8 + 1e-5 * |new|`). -/
theorem update_mean_and_allclose (d : Dataset) (c : Cluster)
    (h1 : c.indices ≠ [])
    (h2 : ∀ i ∈ c.indices, i < d.getSize)
    (h3 : ∀ p ∈ d.contents, p.length = d.dimension)
    (h4 : c.centroid.length = d.dimension) :
    (Cluster.update d c).2.centroid = (List.range d.dimension).map (fun j =>
        ((c.getContents d).map (fun p => p.getD j 0)).sum /
          ((c.getContents d).length : ℚ)) ∧
      (Cluster.update d c).1 = (List.range d.dimension).all (fun j =>
        decide (|c.centroid.getD j 0 - (Cluster.update d c).2.centroid.getD j 0| ≤
          atol + rtol * |(Cluster.update d c).2.centroid.getD j 0|)) := by
  have hne : c.getContents d ≠ [] := by
    simpa [Cluster.getContents] using h1
  obtain ⟨p0, ps, hcon⟩ := List.exists_cons_of_ne_nil hne
  have hup := update_eq_of_cons d c p0 ps hcon
  have hRlen := recomputation_length d c h1 h2 h3
  constructor
  · rw [hup]
    exact recomputation_eq_mean d c h1 h2 h3
  · rw [hup]
    show allclose c.centroid (c.recomputation d) = _
    rw [allclose_eq_range _ _ (h4.trans hRlen.symm), hRlen]

theorem update_mean_and_allclose_witness :
    (Cluster.update ⟨1, [[1], [3]]⟩ ⟨true, [2], [0, 1]⟩).2.centroid =
        (List.range (1 : ℕ)).map (fun j =>
          (((⟨true, [2], [0, 1]⟩ : Cluster).getContents ⟨1, [[1], [3]]⟩).map
              (fun p => p.getD j 0)).sum /
            ((((⟨true, [2], [0, 1]⟩ : Cluster).getContents ⟨1, [[1], [3]]⟩)).length : ℚ)) ∧
      (Cluster.update ⟨1, [[1], [3]]⟩ ⟨true, [2], [0, 1]⟩).1 =
        (List.range (1 : ℕ)).all (fun j =>
          decide (|(⟨true, [(2 : ℚ)], [0, 1]⟩ : Cluster).centroid.getD j 0 -
              (Cluster.update ⟨1, [[1], [3]]⟩ ⟨true, [2], [0, 1]⟩).2.centroid.getD j 0| ≤
            atol + rtol *
              |(Cluster.update ⟨1, [[1], [3]]⟩ ⟨true, [2], [0, 1]⟩).2.centroid.getD j 0|)) :=
  update_mean_and_allclose ⟨1, [[1], [3]]⟩ ⟨true, [2], [0, 1]⟩ (by decide)
    (by decide) (by decide) (by decide)

/-- Claim C9, counterexample: `getCentroid()` does not always return a
tuple.  `Cluster.update` stores the `recomputation` — a Python *list* —
into `_centroid`, so after one `update()` on a cluster with members the
stored centroid is a mutable list, not the immutable tuple the constructor
asserted (`centroidIsTuple` records `type(_centroid) == tuple`). -/
theorem centroid_tuple_cex :
    (⟨true, [1], [0, 1]⟩ : Cluster).centroidIsTuple = true ∧
      (Cluster.update ⟨1, [[0], [2]]⟩ ⟨true, [1], [0, 1]⟩).2.centroidIsTuple = false := by
  constructor
  · rfl
  · rfl

/-- Claim C9, amended: after any `update()` (under the documented
invariants) the stored centroid is still a fixed-length numeric sequence of
the dataset's dimension — but it is a Python tuple only until the first
`update()` with members, which replaces it by a list. -/
theorem centroid_seq_invariant (d : Dataset) (c : Cluster)
    (h2 : ∀ i ∈ c.indices, i < d.getSize)
    (h3 : ∀ p ∈ d.contents, p.length = d.dimension)
    (h4 : c.centroid.length = d.dimension) :
    (Cluster.update d c).2.centroid.length = d.dimension ∧
      (Cluster.update d c).2.centroidIsTuple =
        (if c.indices = [] then c.centroidIsTuple else false) := by
  by_cases hi : c.indices = []
  · rw [update_empty_frame d c hi]
    exact ⟨h4, by simp [hi]⟩
  · have hne : c.getContents d ≠ [] := by
      simpa [Cluster.getContents] using hi
    obtain ⟨p0, ps, hcon⟩ := List.exists_cons_of_ne_nil hne
    rw [update_eq_of_cons d c p0 ps hcon]
    exact ⟨recomputation_length d c hi h2 h3, by simp [hi]⟩

theorem centroid_seq_invariant_witness :
    (Cluster.update ⟨1, [[0], [2]]⟩ ⟨true, [1], [0, 1]⟩).2.centroid.length = 1 ∧
      (Cluster.update ⟨1, [[0], [2]]⟩ ⟨true, [1], [0, 1]⟩).2.centroidIsTuple =
        (if ((⟨true, [(1 : ℚ)], [0, 1]⟩ : Cluster)).indices = [] then
          ((⟨true, [(1 : ℚ)], [0, 1]⟩ : Cluster)).centroidIsTuple else false) :=
  centroid_seq_invariant ⟨1, [[0], [2]]⟩ ⟨true, [1], [0, 1]⟩ (by decide) (by decide)
    (by decide)

/-- Claim C3: for a point of the dataset's dimension, `_nearest` returns
the cluster whose centroid is (weakly) closest to the point among all the
engine's clusters, and on ties the one occurring earliest in the cluster
list — every strictly earlier cluster is strictly farther.  Distances are
compared through their squares (`distSq`); the square root the source takes
is strictly monotone, so minima and ties coincide. -/
theorem nearest_first_min (a : Algorithm) (point : Point)
    (hc : a.clusters ≠ [])
    (hp : point.length = a.dataset.getDimension) :
    (a.nearestIdx point).map (nearestOk a point) = some true := by
  have hLne : a.clusters.map (fun c => c.distSq point) ≠ [] := by
    simpa using hc
  obtain ⟨l0, lrest, hL⟩ := List.exists_cons_of_ne_nil hLne
  obtain ⟨m, hmin, hmem, hle⟩ : ∃ m, listMin (a.clusters.map (fun c => c.distSq point)) =
      some m ∧ m ∈ a.clusters.map (fun c => c.distSq point) ∧
      ∀ y ∈ a.clusters.map (fun c => c.distSq point), m ≤ y := by
    rw [hL]
    exact listMin_spec l0 lrest
  obtain ⟨cm, hcm, hcmval⟩ := List.mem_map.mp hmem
  obtain ⟨j, hj⟩ := firstIdx_isSome_of_exists (fun c => decide (c.distSq point = m))
    a.clusters ⟨cm, hcm, decide_eq_true hcmval⟩
  unfold Algorithm.nearestIdx
  rw [if_pos hp, hmin]
  show (firstIdx (fun c => decide (c.distSq point = m)) a.clusters).map
      (nearestOk a point) = some true
  rw [hj]
  obtain ⟨c, hcget, hpc, hearlier⟩ := firstIdx_spec _ a.clusters j hj
  have hjlen : j < a.clusters.length := firstIdx_lt _ a.clusters j hj
  have hcval : c.distSq point = m := of_decide_eq_true hpc
  show some (nearestOk a point j) = some true
  refine congrArg some ?_
  unfold nearestOk
  rw [hcget]
  show ((a.clusters.all fun c2 => decide (c.distSq point ≤ c2.distSq point)) &&
      (List.range j).all fun k =>
        decide (c.distSq point < (a.clusters.getD k cDefault).distSq point)) = true
  rw [Bool.and_eq_true, List.all_eq_true, List.all_eq_true]
  constructor
  · intro c2 hc2
    rw [decide_eq_true_eq, hcval]
    exact hle _ (List.mem_map.mpr ⟨c2, hc2, rfl⟩)
  · intro k hk
    have hkj : k < j := List.mem_range.mp hk
    rcases hk' : a.clusters.get? k with - | c'
    · exact absurd (List.get?_eq_none.mp hk') (by omega)
    · have hne : c'.distSq point ≠ m :=
        of_decide_eq_false (hearlier k hkj c' hk')
      have hlt : m < c'.distSq point :=
        lt_of_le_of_ne (hle _ (List.mem_map.mpr ⟨c', List.get?_mem hk', rfl⟩))
          (fun hmn => hne hmn.symm)
      rw [decide_eq_true_eq]
      have hgd : a.clusters.getD k cDefault = c' := by
        rw [List.getD_eq_get?, hk']
        rfl
      rw [hgd, hcval]
      exact hlt

theorem nearest_first_min_witness :
    (Algorithm.nearestIdx ⟨⟨1, [[0], [10]]⟩, [⟨true, [0], []⟩, ⟨true, [10], []⟩]⟩
        [4]).map
      (nearestOk ⟨⟨1, [[0], [10]]⟩, [⟨true, [0], []⟩, ⟨true, [10], []⟩]⟩ [4]) =
      some true :=
  nearest_first_min ⟨⟨1, [[0], [10]]⟩, [⟨true, [0], []⟩, ⟨true, [10], []⟩]⟩ [4]
    (by decide) (by decide)

theorem nearestIdx_some (a : Algorithm) (point : Point)
    (hc : a.clusters ≠ [])
    (hp : point.length = a.dataset.getDimension) :
    ∃ j, a.nearestIdx point = some j ∧ j < a.clusters.length := by
  have hLne : a.clusters.map (fun c => c.distSq point) ≠ [] := by
    simpa using hc
  obtain ⟨l0, lrest, hL⟩ := List.exists_cons_of_ne_nil hLne
  obtain ⟨m, hmin, hmem, -⟩ : ∃ m, listMin (a.clusters.map (fun c => c.distSq point)) =
      some m ∧ m ∈ a.clusters.map (fun c => c.distSq point) ∧
      ∀ y ∈ a.clusters.map (fun c => c.distSq point), m ≤ y := by
    rw [hL]
    exact listMin_spec l0 lrest
  obtain ⟨cm, hcm, hcmval⟩ := List.mem_map.mp hmem
  obtain ⟨j, hj⟩ := firstIdx_isSome_of_exists (fun c => decide (c.distSq point = m))
    a.clusters ⟨cm, hcm, decide_eq_true hcmval⟩
  refine ⟨j, ?_, firstIdx_lt _ a.clusters j hj⟩
  unfold Algorithm.nearestIdx
  rw [if_pos hp, hmin]
  exact hj

theorem totalCount_cleared (cs : List Cluster) (x : ℕ) :
    totalCount (cs.map Cluster.clear) x = 0 := by
  induction cs with
  | nil => rfl
  | cons c rest ih =>
    rw [List.map_cons, totalCount_cons]
    simp [Cluster.clear, ih]

theorem partitionLoop_spec (d : Dataset)
    (hdim : ∀ p ∈ d.contents, p.length = d.dimension) :
    ∀ (idxs : List ℕ) (cs : List Cluster), cs ≠ [] → idxs.Nodup →
      (∀ x ∈ idxs, x < d.getSize) → (∀ x ∈ idxs, totalCount cs x = 0) →
      ∃ cs', partitionLoop d cs idxs = some cs' ∧ cs'.length = cs.length ∧
        (∀ x ∈ idxs, totalCount cs' x = 1) ∧
        (∀ y, y ∉ idxs → totalCount cs' y = totalCount cs y) := by
  intro idxs
  induction idxs with
  | nil =>
    intro cs hcs hnd hlt h0
    exact ⟨cs, rfl, rfl, by simp, fun y hy => rfl⟩
  | cons i rest ih =>
    intro cs hcs hnd hlt h0
    have hpoint : (d.getPoint i).length = d.getDimension :=
      hdim _ (getPoint_mem d i (hlt i (List.mem_cons_self _ _)))
    obtain ⟨j, hj, hjlen⟩ := nearestIdx_some ⟨d, cs⟩ (d.getPoint i) hcs hpoint
    have heq : partitionLoop d cs (i :: rest) =
        partitionLoop d (modifyAt cs j (fun c => c.addIndex i)) rest := by
      simp only [partitionLoop, hj]
    have hnd2 := List.nodup_cons.mp hnd
    have h0i : totalCount cs i = 0 := h0 i (List.mem_cons_self _ _)
    have hlen2 : (modifyAt cs j (fun c => c.addIndex i)).length = cs.length :=
      modifyAt_length _ cs j
    have hcs2 : modifyAt cs j (fun c => c.addIndex i) ≠ [] := by
      intro hnil
      rw [hnil] at hlen2
      exact hcs (List.length_eq_zero.mp hlen2.symm)
    have hrest0 : ∀ x ∈ rest, totalCount (modifyAt cs j (fun c => c.addIndex i)) x = 0 := by
      intro x hx
      have hxi : x ≠ i := fun hxi => hnd2.1 (hxi ▸ hx)
      rw [totalCount_modifyAt_other cs j i x hxi]
      exact h0 x (List.mem_cons_of_mem _ hx)
    obtain ⟨cs', hloop, hlen, h1, hother⟩ :=
      ih (modifyAt cs j (fun c => c.addIndex i)) hcs2 hnd2.2
        (fun x hx => hlt x (List.mem_cons_of_mem _ hx)) hrest0
    refine ⟨cs', heq.trans hloop, hlen.trans hlen2, ?_, ?_⟩
    · intro x hx
      rcases List.mem_cons.mp hx with h | h
      · rw [h, hother i hnd2.1]
        exact totalCount_modifyAt_self cs j i hjlen h0i
      · exact h1 x h
    · intro y hy
      have hyrest : y ∉ rest := fun h => hy (List.mem_cons_of_mem _ h)
      have hyi : y ≠ i := fun h => hy (h ▸ List.mem_cons_self _ _)
      rw [hother y hyrest]
      exact totalCount_modifyAt_other cs j i y hyi

/-- Claim C1: on an engine with a nonempty dataset (and at least one
cluster, which any `k > 0` construction yields — with an empty cluster list
`_nearest` raises `ValueError` and `partition` does not complete), after
`_partition()` every dataset index `0 .. size-1` occurs in the member lists
of the clusters exactly once, and nothing else occurs: a true partition. -/
theorem partition_exact (a : Algorithm)
    (hc : a.clusters ≠ [])
    (hdim : ∀ p ∈ a.dataset.contents, p.length = a.dataset.dimension)
    (hpos : 0 < a.dataset.getSize) :
    (a.partition).map partitionIsExact = some true := by
  have hclr : a.clusters.map Cluster.clear ≠ [] := by
    simpa using hc
  obtain ⟨cs', hloop, hlen, h1, hother⟩ :=
    partitionLoop_spec a.dataset hdim (List.range a.dataset.getSize)
      (a.clusters.map Cluster.clear) hclr (List.nodup_range _)
      (fun x hx => List.mem_range.mp hx)
      (fun x hx => totalCount_cleared a.clusters x)
  unfold Algorithm.partition
  rw [hloop]
  refine congrArg some ?_
  show ((List.range a.dataset.getSize).all (fun i => totalCount cs' i == 1) &&
      cs'.all (fun c => c.indices.all (fun i => decide (i < a.dataset.getSize)))) = true
  rw [Bool.and_eq_true, List.all_eq_true, List.all_eq_true]
  constructor
  · intro i hi
    exact beq_iff_eq.mpr (h1 i hi)
  · intro c hcmem
    rw [List.all_eq_true]
    intro i hiidx
    rw [decide_eq_true_eq]
    by_contra hge
    have hnotin : i ∉ List.range a.dataset.getSize := by
      rw [List.mem_range]
      omega
    have hzero : totalCount cs' i = 0 := by
      rw [hother i hnotin]
      exact totalCount_cleared a.clusters i
    have hpos2 : 0 < totalCount cs' i := totalCount_pos_of_mem cs' c hcmem i hiidx
    omega

theorem partition_exact_witness :
    (Algorithm.partition ⟨⟨1, [[0], [10]]⟩,
        [⟨true, [0], []⟩, ⟨true, [10], []⟩]⟩).map partitionIsExact = some true :=
  partition_exact ⟨⟨1, [[0], [10]]⟩, [⟨true, [0], []⟩, ⟨true, [10], []⟩]⟩
    (by decide) (by decide) (by decide)

theorem afterSteps_front (a a2 : Algorithm) (f : Bool) (h : a.step = some (f, a2)) :
    ∀ k, afterSteps a (k + 1) = afterSteps a2 k := by
  intro k
  induction k with
  | zero => simp [afterSteps, h]
  | succ k ih =>
    calc afterSteps a (k + 1 + 1)
        = (afterSteps a (k + 1)).bind (fun b => b.step.map Prod.snd) := rfl
      _ = (afterSteps a2 k).bind (fun b => b.step.map Prod.snd) := by rw [ih]
      _ = afterSteps a2 (k + 1) := rfl

theorem flagAt_front (a a2 : Algorithm) (f : Bool) (h : a.step = some (f, a2)) (k : ℕ) :
    flagAt a (k + 1) = flagAt a2 k := by
  unfold flagAt
  rw [afterSteps_front a a2 f h k]

theorem flagAt_zero (a : Algorithm) : flagAt a 0 = a.step.map Prod.fst := rfl

/-- Claim C4: `run(maxstep)` performs at most `maxstep` calls to `step()`
(none at all for `run(0)`), every call before the last reports `False`, and
it only stops short of the budget because the last call reported `True` —
so when no call converges, exactly `maxstep` calls happen.  The count in
`run`'s result instruments the number of `step()` invocations. -/
theorem run_spec : ∀ (m : ℕ) (a b : Algorithm) (n : ℕ), a.run m = some (b, n) →
    n ≤ m ∧ afterSteps a n = some b ∧
      ((List.range (n - 1)).all (fun i => decide (flagAt a i = some false))) = true ∧
      (n < m → 1 ≤ n ∧ flagAt a (n - 1) = some true) ∧ (m = 0 → n = 0) := by
  intro m
  induction m with
  | zero =>
    intro a b n h
    unfold Algorithm.run at h
    rw [Option.some_inj, Prod.mk.injEq] at h
    obtain ⟨rfl, rfl⟩ := h
    exact ⟨le_refl 0, rfl, rfl, by omega, fun _ => rfl⟩
  | succ m ih =>
    intro a b n h
    rcases hstep : a.step with - | ⟨f, a2⟩
    · simp only [Algorithm.run, hstep] at h
      exact Option.noConfusion h
    · cases f
      · simp only [Algorithm.run, hstep] at h
        rcases hr : a2.run m with - | ⟨b0, n0⟩
        · rw [hr] at h
          simp at h
        · rw [hr, Option.map_some', Option.some_inj, Prod.mk.injEq] at h
          obtain ⟨rfl, rfl⟩ := h
          obtain ⟨ih1, ih2, ih3, ih4, ih5⟩ := ih a2 b0 n0 hr
          refine ⟨by omega, ?_, ?_, ?_, by omega⟩
          · rw [afterSteps_front a a2 false hstep n0]
            exact ih2
          · rw [List.all_eq_true]
            intro i hi
            have hin : i < n0 := by
              have := List.mem_range.mp hi
              omega
            rw [decide_eq_true_eq]
            match i with
            | 0 =>
              rw [flagAt_zero, hstep]
              rfl
            | Nat.succ i2 =>
              rw [flagAt_front a a2 false hstep i2]
              have hmem : i2 ∈ List.range (n0 - 1) := List.mem_range.mpr (by omega)
              have := (List.all_eq_true.mp ih3) i2 hmem
              exact of_decide_eq_true this
          · intro hlt
            have hn0 : n0 < m := by omega
            obtain ⟨hge1, hflag⟩ := ih4 hn0
            refine ⟨by omega, ?_⟩
            have hsub : n0 + 1 - 1 = (n0 - 1) + 1 := by omega
            rw [hsub, flagAt_front a a2 false hstep (n0 - 1)]
            exact hflag
      · simp only [Algorithm.run, hstep] at h
        rw [Option.some_inj, Prod.mk.injEq] at h
        obtain ⟨rfl, hn⟩ := h
        subst hn
        refine ⟨by omega, ?_, rfl, ?_, by omega⟩
        · show (some a).bind (fun b => b.step.map Prod.snd) = some a2
          rw [Option.some_bind, hstep]
          rfl
        · intro _
          refine ⟨le_refl 1, ?_⟩
          rw [flagAt_zero, hstep]
          rfl

theorem run_spec_witness :
    Algorithm.run ⟨⟨1, [[0], [10]]⟩, [⟨true, [0], []⟩, ⟨true, [10], []⟩]⟩ 5 =
        some (⟨⟨1, [[0], [10]]⟩, [⟨false, [0], [0]⟩, ⟨false, [10], [1]⟩]⟩, 1) ∧
      (1 ≤ 5 ∧ afterSteps ⟨⟨1, [[0], [10]]⟩, [⟨true, [0], []⟩, ⟨true, [10], []⟩]⟩ 1 =
          some ⟨⟨1, [[0], [10]]⟩, [⟨false, [0], [0]⟩, ⟨false, [10], [1]⟩]⟩ ∧
        ((List.range (1 - 1)).all (fun i =>
          decide (flagAt ⟨⟨1, [[0], [10]]⟩, [⟨true, [0], []⟩, ⟨true, [10], []⟩]⟩ i =
            some false))) = true ∧
        (1 < 5 → 1 ≤ 1 ∧
          flagAt ⟨⟨1, [[0], [10]]⟩, [⟨true, [0], []⟩, ⟨true, [10], []⟩]⟩ (1 - 1) =
            some true) ∧ (5 = 0 → 1 = 0)) :=
  ⟨rfl, run_spec 5 ⟨⟨1, [[0], [10]]⟩, [⟨true, [0], []⟩, ⟨true, [10], []⟩]⟩
    ⟨⟨1, [[0], [10]]⟩, [⟨false, [0], [0]⟩, ⟨false, [10], [1]⟩]⟩ 1 rfl⟩

/-- The state of a cluster that the partition/update phases read: centroid
numbers and membership (the Python tuple/list type tag is irrelevant to
them). -/
def clusterData (c : Cluster) : List ℚ × List ℕ := (c.centroid, c.indices)

theorem distSq_congr (c c' : Cluster) (h : c.centroid = c'.centroid) (p : Point) :
    c.distSq p = c'.distSq p := by
  unfold Cluster.distSq
  rw [h]

theorem map_congr_of_data {α : Type} (f : Cluster → α)
    (hf : ∀ c c', c.centroid = c'.centroid → c.indices = c'.indices → f c = f c') :
    ∀ (cs cs' : List Cluster), cs.map clusterData = cs'.map clusterData →
      cs.map f = cs'.map f := by
  intro cs
  induction cs with
  | nil =>
    intro cs' h
    cases cs' with
    | nil => rfl
    | cons c' rest' => simp at h
  | cons c rest ih =>
    intro cs' h
    cases cs' with
    | nil => simp at h
    | cons c' rest' =>
      rw [List.map_cons, List.map_cons, List.cons.injEq] at h
      rw [Prod.mk.injEq] at h
      rw [List.map_cons, List.map_cons, hf c c' h.1.1 h.1.2, ih rest' h.2]

theorem firstIdx_congr (p : Cluster → Bool)
    (hp : ∀ c c', c.centroid = c'.centroid → c.indices = c'.indices → p c = p c') :
    ∀ (cs cs' : List Cluster), cs.map clusterData = cs'.map clusterData →
      firstIdx p cs = firstIdx p cs' := by
  intro cs
  induction cs with
  | nil =>
    intro cs' h
    cases cs' with
    | nil => rfl
    | cons c' rest' => simp at h
  | cons c rest ih =>
    intro cs' h
    cases cs' with
    | nil => simp at h
    | cons c' rest' =>
      rw [List.map_cons, List.map_cons, List.cons.injEq] at h
      rw [Prod.mk.injEq] at h
      unfold firstIdx
      rw [hp c c' h.1.1 h.1.2, ih rest' h.2]

theorem nearestIdx_congr (d : Dataset) (cs cs' : List Cluster)
    (h : cs.map clusterData = cs'.map clusterData) (pt : Point) :
    Algorithm.nearestIdx ⟨d, cs⟩ pt = Algorithm.nearestIdx ⟨d, cs'⟩ pt := by
  have hdist : cs.map (fun c => c.distSq pt) = cs'.map (fun c => c.distSq pt) :=
    map_congr_of_data _ (fun c c' hc hi => distSq_congr c c' hc pt) cs cs' h
  show (if pt.length = d.getDimension then
      match listMin (cs.map (fun c => c.distSq pt)) with
      | Option.none => Option.none
      | some m => firstIdx (fun c => decide (c.distSq pt = m)) cs
    else Option.none) =
    (if pt.length = d.getDimension then
      match listMin (cs'.map (fun c => c.distSq pt)) with
      | Option.none => Option.none
      | some m => firstIdx (fun c => decide (c.distSq pt = m)) cs'
    else Option.none)
  rw [hdist]
  split
  · cases hm : listMin (cs'.map (fun c => c.distSq pt)) with
    | none => rfl
    | some m =>
      refine firstIdx_congr _ ?_ cs cs' h
      intro c c' hc hi
      show decide (c.distSq pt = m) = decide (c'.distSq pt = m)
      rw [distSq_congr c c' hc pt]
  · rfl

theorem addIndex_data_congr (c c' : Cluster) (i : ℕ)
    (hcen : c.centroid = c'.centroid) (hind : c.indices = c'.indices) :
    clusterData (c.addIndex i) = clusterData (c'.addIndex i) := by
  unfold Cluster.addIndex clusterData
  rw [hind]
  split <;> simp [hcen, hind]

theorem modifyAt_data_congr (i : ℕ) :
    ∀ (cs cs' : List Cluster) (j : ℕ), cs.map clusterData = cs'.map clusterData →
      (modifyAt cs j (fun c => c.addIndex i)).map clusterData =
        (modifyAt cs' j (fun c => c.addIndex i)).map clusterData := by
  intro cs
  induction cs with
  | nil =>
    intro cs' j h
    cases cs' with
    | nil => rfl
    | cons c' rest' => simp at h
  | cons c rest ih =>
    intro cs' j h
    cases cs' with
    | nil => simp at h
    | cons c' rest' =>
      rw [List.map_cons, List.map_cons, List.cons.injEq] at h
      match j with
      | 0 =>
        show (c.addIndex i :: rest).map clusterData = (c'.addIndex i :: rest').map clusterData
        rw [List.map_cons, List.map_cons, h.2]
        rw [Prod.mk.injEq] at h
        rw [addIndex_data_congr c c' i h.1.1 h.1.2]
      | Nat.succ j2 =>
        show (c :: modifyAt rest j2 (fun c => c.addIndex i)).map clusterData =
          (c' :: modifyAt rest' j2 (fun c => c.addIndex i)).map clusterData
        rw [List.map_cons, List.map_cons, h.1, ih rest' j2 h.2]

theorem partitionLoop_data_congr (d : Dataset) :
    ∀ (idxs : List ℕ) (cs cs' : List Cluster),
      cs.map clusterData = cs'.map clusterData →
      (partitionLoop d cs idxs).map (List.map clusterData) =
        (partitionLoop d cs' idxs).map (List.map clusterData) := by
  intro idxs
  induction idxs with
  | nil =>
    intro cs cs' h
    simpa [partitionLoop] using h
  | cons i rest ih =>
    intro cs cs' h
    have hnear := nearestIdx_congr d cs cs' h (d.getPoint i)
    show (match Algorithm.nearestIdx ⟨d, cs⟩ (d.getPoint i) with
      | Option.none => Option.none
      | some j => partitionLoop d (modifyAt cs j (fun c => c.addIndex i)) rest).map
        (List.map clusterData) =
      (match Algorithm.nearestIdx ⟨d, cs'⟩ (d.getPoint i) with
      | Option.none => Option.none
      | some j => partitionLoop d (modifyAt cs' j (fun c => c.addIndex i)) rest).map
        (List.map clusterData)
    rw [hnear]
    cases hm : Algorithm.nearestIdx ⟨d, cs'⟩ (d.getPoint i) with
    | none => rfl
    | some j => exact ih _ _ (modifyAt_data_congr i cs cs' j h)

theorem partitionLoop_centroids (d : Dataset) :
    ∀ (idxs : List ℕ) (cs cs2 : List Cluster), partitionLoop d cs idxs = some cs2 →
      cs2.map Cluster.centroid = cs.map Cluster.centroid := by
  intro idxs
  induction idxs with
  | nil =>
    intro cs cs2 h
    cases h
    rfl
  | cons i rest ih =>
    intro cs cs2 h
    rcases hnear : Algorithm.nearestIdx ⟨d, cs⟩ (d.getPoint i) with - | j
    · rw [partitionLoop, hnear] at h
      exact Option.noConfusion h
    · rw [partitionLoop, hnear] at h
      rw [ih _ _ h]
      exact map_modifyAt_invariant _ Cluster.centroid (fun c => addIndex_centroid c i) cs j

theorem map_centroid_clear (cs : List Cluster) :
    (cs.map Cluster.clear).map Cluster.centroid = cs.map Cluster.centroid := by
  simp [List.map_map, Function.comp_def, Cluster.clear]

theorem map_data_clear_eq (cs : List Cluster) :
    (cs.map Cluster.clear).map clusterData =
      (cs.map Cluster.centroid).map (fun v => (v, ([] : List ℕ))) := by
  simp [List.map_map, Function.comp_def, Cluster.clear, clusterData]

theorem update_congr (d : Dataset) (c c' : Cluster) (hcen : c.centroid = c'.centroid)
    (hind : c.indices = c'.indices) :
    (Cluster.update d c).1 = (Cluster.update d c').1 ∧
      (Cluster.update d c).2.centroid = (Cluster.update d c').2.centroid := by
  have hcon : c.getContents d = c'.getContents d := by
    unfold Cluster.getContents
    rw [hind]
  have hrec : c.recomputation d = c'.recomputation d := by
    unfold Cluster.recomputation
    rw [hcon, hcen]
  unfold Cluster.update
  rw [hcon]
  cases hx : c'.getContents d with
  | nil => exact ⟨rfl, hcen⟩
  | cons p0 ps =>
    constructor
    · show allclose c.centroid (c.recomputation d) =
        allclose c'.centroid (c'.recomputation d)
      rw [hcen, hrec]
    · show c.recomputation d = c'.recomputation d
      exact hrec

theorem update_fst_of_centroid_fixed (d : Dataset) (c : Cluster)
    (h : (Cluster.update d c).2.centroid = c.centroid) : (Cluster.update d c).1 = true := by
  cases hx : c.getContents d with
  | nil =>
    simp only [Cluster.update, hx]
  | cons p0 ps =>
    have hup := update_eq_of_cons d c p0 ps hx
    rw [hup] at h ⊢
    have h2 : c.recomputation d = c.centroid := h
    show allclose c.centroid (c.recomputation d) = true
    rw [h2]
    exact allclose_self c.centroid

theorem updateAll_fst_congr (d : Dataset) :
    ∀ (cs cs' : List Cluster), cs.map clusterData = cs'.map clusterData →
      ((cs.map (fun c => Cluster.update d c)).all Prod.fst) =
        ((cs'.map (fun c => Cluster.update d c)).all Prod.fst) := by
  intro cs
  induction cs with
  | nil =>
    intro cs' h
    cases cs' with
    | nil => rfl
    | cons c' rest' => simp at h
  | cons c rest ih =>
    intro cs' h
    cases cs' with
    | nil => simp at h
    | cons c' rest' =>
      rw [List.map_cons, List.map_cons, List.cons.injEq] at h
      rw [Prod.mk.injEq] at h
      rw [List.map_cons, List.map_cons, List.all_cons, List.all_cons,
        (update_congr d c c' h.1.1 h.1.2).1, ih rest' h.2]

/-- Claim C7, counterexample: `step()` returning `True` is *not* a fixed
point.  Dataset `[(0,), (50000,), (150001,), (99999,)]`, `k = 2`, seeds
`[0, 3]`: the first `step()` returns `True` (each centroid moves within the
`numpy.allclose` tolerance — cluster 1 moves from `99999` to `100000`, and
`1 <= 1e-8 + 1e-5 * 100000`), but the moved centroid `100000` now ties the
point `50000` (tie-break sends it to cluster 0), so the second `step()`
repartitions differently and returns `False`. -/
theorem step_true_idempotent_cex :
    ((Algorithm.init ⟨1, [[0], [50000], [150001], [99999]]⟩ 2 (some [0, 3]) []).bind
        Algorithm.step).map Prod.fst = some true ∧
      (((Algorithm.init ⟨1, [[0], [50000], [150001], [99999]]⟩ 2 (some [0, 3]) []).bind
          Algorithm.step).bind (fun pr => pr.2.step)).map Prod.fst = some false := by
  constructor
  · rfl
  · rfl

/-- Claim C7, amended: convergence is idempotent when the centroids are
*exactly* unchanged by the step (not merely within the `allclose`
tolerance): if `step()` succeeds and leaves every centroid's value equal to
what it was before the step, the next `step()` returns `True`.  With only
tolerance-level stability a later step can return `False`
(see the counterexample). -/
theorem step_exact_fixed_point (a : Algorithm) (p : Bool) (a2 : Algorithm)
    (hstep : a.step = some (p, a2))
    (hfix : a2.clusters.map Cluster.centroid = a.clusters.map Cluster.centroid) :
    (a2.step).map Prod.fst = some true := by
  unfold Algorithm.step at hstep
  rcases hP : a.partition with - | aP
  · rw [hP] at hstep
    exact Option.noConfusion hstep
  · rw [hP, Option.map_some', Option.some_inj] at hstep
    unfold Algorithm.partition at hP
    rcases hL : partitionLoop a.dataset (a.clusters.map Cluster.clear)
        (List.range a.dataset.getSize) with - | csP
    · rw [hL] at hP
      exact Option.noConfusion hP
    · rw [hL, Option.map_some'] at hP
      rw [Option.some_inj] at hP
      have haP : aP = ⟨a.dataset, csP⟩ := hP.symm
      subst haP
      have ha2 : a2 = ⟨a.dataset,
          (csP.map (fun c => Cluster.update a.dataset c)).map Prod.snd⟩ :=
        (congrArg Prod.snd hstep).symm
      subst ha2
      have hcsP : csP.map Cluster.centroid = a.clusters.map Cluster.centroid :=
        (partitionLoop_centroids a.dataset _ _ _ hL).trans (map_centroid_clear a.clusters)
      have hfix2 : csP.map (fun c => (Cluster.update a.dataset c).2.centroid) =
          csP.map Cluster.centroid := by
        have h1 : ((csP.map (fun c => Cluster.update a.dataset c)).map
            Prod.snd).map Cluster.centroid =
            csP.map (fun c => (Cluster.update a.dataset c).2.centroid) := by
          rw [List.map_map, List.map_map]
          rfl
        rw [← h1, hfix, hcsP]
      have hpt : ∀ c ∈ csP, (Cluster.update a.dataset c).2.centroid = c.centroid :=
        List.map_eq_map_iff.mp hfix2
      have hdata : (((csP.map (fun c => Cluster.update a.dataset c)).map
          Prod.snd).map Cluster.clear).map clusterData =
          ((a.clusters.map Cluster.clear)).map clusterData := by
        rw [map_data_clear_eq, map_data_clear_eq, hfix]
      have hcong := partitionLoop_data_congr a.dataset
        (List.range a.dataset.getSize) _ _ hdata
      rw [hL, Option.map_some'] at hcong
      rcases hL2 : partitionLoop a.dataset
          (((csP.map (fun c => Cluster.update a.dataset c)).map Prod.snd).map Cluster.clear)
          (List.range a.dataset.getSize) with - | csP2
      · rw [hL2] at hcong
        exact Option.noConfusion hcong
      · rw [hL2, Option.map_some', Option.some_inj] at hcong
        show (((partitionLoop a.dataset
            (((csP.map (fun c => Cluster.update a.dataset c)).map Prod.snd).map Cluster.clear)
            (List.range a.dataset.getSize)).map
              (fun cs => (⟨a.dataset, cs⟩ : Algorithm))).map Algorithm.update).map
                Prod.fst = some true
        rw [hL2]
        show some ((Algorithm.update ⟨a.dataset, csP2⟩).1) = some true
        refine congrArg some ?_
        show (csP2.map (fun c => Cluster.update a.dataset c)).all Prod.fst = true
        rw [updateAll_fst_congr a.dataset csP2 csP hcong]
        rw [List.all_eq_true]
        intro pr hpr
        obtain ⟨c, hc, rfl⟩ := List.mem_map.mp hpr
        exact update_fst_of_centroid_fixed a.dataset c (hpt c hc)

theorem step_exact_fixed_point_witness :
    Algorithm.step ⟨⟨1, [[0], [10]]⟩, [⟨true, [0], []⟩, ⟨true, [10], []⟩]⟩ =
        some (true, ⟨⟨1, [[0], [10]]⟩, [⟨false, [0], [0]⟩, ⟨false, [10], [1]⟩]⟩) ∧
      ((⟨⟨1, [[0], [10]]⟩, [⟨false, [0], [0]⟩, ⟨false, [10], [1]⟩]⟩ :
          Algorithm).step).map Prod.fst = some true :=
  ⟨rfl, step_exact_fixed_point ⟨⟨1, [[0], [10]]⟩, [⟨true, [0], []⟩, ⟨true, [10], []⟩]⟩
    true ⟨⟨1, [[0], [10]]⟩, [⟨false, [0], [0]⟩, ⟨false, [10], [1]⟩]⟩ rfl rfl⟩

theorem partitionLoop_length (d : Dataset) :
    ∀ (idxs : List ℕ) (cs cs2 : List Cluster), partitionLoop d cs idxs = some cs2 →
      cs2.length = cs.length := by
  intro idxs
  induction idxs with
  | nil =>
    intro cs cs2 h
    cases h
    rfl
  | cons i rest ih =>
    intro cs cs2 h
    rcases hnear : Algorithm.nearestIdx ⟨d, cs⟩ (d.getPoint i) with - | j
    · rw [partitionLoop, hnear] at h
      exact Option.noConfusion h
    · rw [partitionLoop, hnear] at h
      rw [ih _ _ h]
      exact modifyAt_length _ cs j

theorem partition_length (a a' : Algorithm) (h : a.partition = some a') :
    a'.clusters.length = a.clusters.length := by
  unfold Algorithm.partition at h
  rcases hL : partitionLoop a.dataset (a.clusters.map Cluster.clear)
      (List.range a.dataset.getSize) with - | cs2
  · rw [hL] at h
    exact Option.noConfusion h
  · rw [hL, Option.map_some', Option.some_inj] at h
    rw [← h]
    show cs2.length = a.clusters.length
    rw [partitionLoop_length a.dataset _ _ _ hL, List.length_map]

theorem update_length (a : Algorithm) :
    (Algorithm.update a).2.clusters.length = a.clusters.length := by
  show ((a.clusters.map (fun c => c.update a.dataset)).map Prod.snd).length = _
  rw [List.length_map, List.length_map]

theorem step_length (a : Algorithm) (b : Bool) (a' : Algorithm)
    (h : a.step = some (b, a')) : a'.clusters.length = a.clusters.length := by
  unfold Algorithm.step at h
  rcases hP : a.partition with - | aP
  · rw [hP] at h
    exact Option.noConfusion h
  · rw [hP, Option.map_some', Option.some_inj] at h
    have h2 : (Algorithm.update aP).2 = a' := congrArg Prod.snd h
    rw [← h2, update_length aP]
    exact partition_length a aP hP

theorem run_length :
    ∀ (m : ℕ) (a b : Algorithm) (n : ℕ), a.run m = some (b, n) →
      b.clusters.length = a.clusters.length := by
  intro m
  induction m with
  | zero =>
    intro a b n h
    unfold Algorithm.run at h
    rw [Option.some_inj, Prod.mk.injEq] at h
    rw [← h.1]
  | succ m ih =>
    intro a b n h
    rcases hstep : a.step with - | ⟨f, a2⟩
    · simp only [Algorithm.run, hstep] at h
      exact Option.noConfusion h
    · cases f
      · simp only [Algorithm.run, hstep] at h
        rcases hr : a2.run m with - | ⟨b0, n0⟩
        · rw [hr] at h
          simp at h
        · rw [hr, Option.map_some', Option.some_inj, Prod.mk.injEq] at h
          obtain ⟨rfl, rfl⟩ := h
          rw [ih a2 b0 n0 hr]
          exact step_length a false a2 hstep
      · simp only [Algorithm.run, hstep] at h
        rw [Option.some_inj, Prod.mk.injEq] at h
        rw [← h.1]
        exact step_length a true a2 hstep

/-- Claim C5, counterexample: with supplied seeds the engine gets exactly
`len(seeds)` clusters, not `k` — the `assert len(seeds) == k` in the source
is commented out and `valid_seeds` never compares the two.  `k = 2` with
`seeds = [0]` passes every assert yet constructs one cluster. -/
theorem clusters_length_cex :
    (Algorithm.init ⟨1, [[0], [1]]⟩ 2 (some [0]) []).map
      (fun a => a.clusters.length) = some 1 ∧ (1 : ℕ) ≠ 2 :=
  ⟨rfl, by decide⟩

/-- Claim C5, amended: a successfully constructed engine has exactly
`len(seeds)` clusters when seeds are supplied (which need not equal `k`)
and exactly `k` clusters when they are drawn at random (`random.sample`
returns `k` indices); thereafter no engine operation — `partition`,
`update`, `step` or `run` — changes the length of the cluster list. -/
theorem clusters_length_invariant :
    (∀ (d : Dataset) (k : ℕ) (s : List ℤ) (r : List ℕ) (a : Algorithm),
      Algorithm.init d k (some s) r = some a → a.clusters.length = s.length) ∧
    (∀ (d : Dataset) (k : ℕ) (r : List ℕ) (a : Algorithm), r.length = k →
      Algorithm.init d k Option.none r = some a → a.clusters.length = k) ∧
    (∀ (a a' : Algorithm), a.partition = some a' →
      a'.clusters.length = a.clusters.length) ∧
    (∀ a : Algorithm, (Algorithm.update a).2.clusters.length = a.clusters.length) ∧
    (∀ (a : Algorithm) (b : Bool) (a' : Algorithm), a.step = some (b, a') →
      a'.clusters.length = a.clusters.length) ∧
    (∀ (m : ℕ) (a b : Algorithm) (n : ℕ), a.run m = some (b, n) →
      b.clusters.length = a.clusters.length) := by
  refine ⟨?_, ?_, partition_length, update_length, step_length, run_length⟩
  · intro d k s r a h
    by_cases hk : 0 < k ∧ k ≤ d.getSize
    · by_cases hv : valid_seeds s d.getSize = true
      · have hinit : Algorithm.init d k (some s) r = some ⟨d,
            s.map (fun seed => ⟨true, d.getPoint seed.toNat, []⟩)⟩ := by
          unfold Algorithm.init
          rw [if_pos hk]
          show (if valid_seeds s d.getSize = true then
            some (⟨d, s.map (fun seed => ⟨true, d.getPoint seed.toNat, []⟩)⟩ : Algorithm)
            else Option.none) = _
          rw [if_pos hv]
        rw [hinit, Option.some_inj] at h
        rw [← h]
        show (s.map (fun seed => (⟨true, d.getPoint seed.toNat, []⟩ : Cluster))).length =
          s.length
        rw [List.length_map]
      · have hinit : Algorithm.init d k (some s) r = Option.none := by
          unfold Algorithm.init
          rw [if_pos hk]
          show (if valid_seeds s d.getSize = true then
            some (⟨d, s.map (fun seed => ⟨true, d.getPoint seed.toNat, []⟩)⟩ : Algorithm)
            else Option.none) = _
          rw [if_neg hv]
        rw [hinit] at h
        exact Option.noConfusion h
    · have hinit : Algorithm.init d k (some s) r = Option.none := by
        unfold Algorithm.init
        rw [if_neg hk]
      rw [hinit] at h
      exact Option.noConfusion h
  · intro d k r a hr h
    by_cases hk : 0 < k ∧ k ≤ d.getSize
    · have hinit : Algorithm.init d k Option.none r = some ⟨d,
          r.map (fun seed => ⟨true, d.getPoint seed, []⟩)⟩ := by
        unfold Algorithm.init
        rw [if_pos hk]
      rw [hinit, Option.some_inj] at h
      rw [← h]
      show (r.map (fun seed => (⟨true, d.getPoint seed, []⟩ : Cluster))).length = k
      rw [List.length_map, hr]
    · have hinit : Algorithm.init d k Option.none r = Option.none := by
        unfold Algorithm.init
        rw [if_neg hk]
      rw [hinit] at h
      exact Option.noConfusion h

theorem clusters_length_invariant_witness :
    Algorithm.init ⟨1, [[0], [1]]⟩ 2 (some [0, 1]) [] =
        some ⟨⟨1, [[0], [1]]⟩, [⟨true, [0], []⟩, ⟨true, [1], []⟩]⟩ ∧
      (⟨⟨1, [[0], [1]]⟩, [⟨true, [0], []⟩, ⟨true, [1], []⟩]⟩ :
        Algorithm).clusters.length = ([0, 1] : List ℤ).length :=
  ⟨rfl, clusters_length_invariant.1 ⟨1, [[0], [1]]⟩ 2 [0, 1] []
    ⟨⟨1, [[0], [1]]⟩, [⟨true, [0], []⟩, ⟨true, [1], []⟩]⟩ rfl⟩
